import Mathlib

/-!
# benjmark / fibonacci.cpp

A shallow embedding of `src/cpp/fibonacci.cpp`.

`int64_t` values are integers in `[INT64_MIN, INT64_MAX]`.  The arithmetic
operators of the source are modelled twice:

* `add64` / `sub64` wrap modulo `2^64` (two's complement), giving the total
  function `fibonacci`;
* `addChecked` / `subChecked` return `none` as soon as a result leaves the
  signed 64-bit range, giving `fibonacciChecked`.
-/

namespace Benjmark

/-! ## 64-bit signed integers -/

/-- Smallest `int64_t`, `-2^63`. -/
def INT64_MIN : Int := -9223372036854775808

/-- Largest `int64_t`, `2^63 - 1`. -/
def INT64_MAX : Int := 9223372036854775807

/-- The value is representable as an `int64_t`. -/
def InInt64 (z : Int) : Prop := INT64_MIN ≤ z ∧ z ≤ INT64_MAX

instance (z : Int) : Decidable (InInt64 z) :=
  inferInstanceAs (Decidable (INT64_MIN ≤ z ∧ z ≤ INT64_MAX))

/-- Reduction of an unbounded integer to its two's complement `int64_t` value. -/
def wrap64 (z : Int) : Int :=
  (z + 9223372036854775808) % 18446744073709551616 - 9223372036854775808

/-- The operator `+` on `int64_t`, wrapping modulo `2^64`. -/
def add64 (a b : Int) : Int := wrap64 (a + b)

/-- The operator `-` on `int64_t`, wrapping modulo `2^64`. -/
def sub64 (a b : Int) : Int := wrap64 (a - b)

/-- The operator `+` on `int64_t`; `none` when the sum is not representable. -/
def addChecked (a b : Int) : Option Int :=
  if InInt64 (a + b) then some (a + b) else none

/-- The operator `-` on `int64_t`; `none` when the difference is not representable. -/
def subChecked (a b : Int) : Option Int :=
  if InInt64 (a - b) then some (a - b) else none

/-! ## The recursion of `fibonacci` -/

/-- `int64_t fibonacci(int64_t x) { return x <= 1? x : fibonacci(x - 1) + fibonacci(x - 2); }`
with wrapping arithmetic. -/
def fibonacci (x : Int) : Int :=
  if x ≤ 1 then x
  else add64 (fibonacci (sub64 x 1)) (fibonacci (sub64 x 2))
termination_by x.toNat
decreasing_by
  all_goals
    simp only [sub64, wrap64]
    omega

set_option linter.unusedVariables false in
/-- The body of `fibonacci` where every `-` and `+` is checked: the result is
`none` when some operation of the recursion leaves the signed 64-bit range. -/
def fibonacciChecked (x : Int) : Option Int :=
  if x ≤ 1 then some x
  else
    match h1 : subChecked x 1, h2 : subChecked x 2 with
    | some x1, some x2 =>
      match fibonacciChecked x1, fibonacciChecked x2 with
      | some a, some b => addChecked a b
      | _, _ => none
    | _, _ => none
termination_by x.toNat
decreasing_by
  all_goals
    simp only [subChecked] at h1 h2
    split at h1 <;> split at h2 <;> simp at h1 h2
    omega

/-- Number of recursive calls of `fibonacci` made while `fibonacci(x)` is
evaluated: none on the branch `x <= 1`, otherwise the two calls of the
other branch and the calls these make. -/
def fibonacciCalls (x : Int) : Nat :=
  if x ≤ 1 then 0
  else 2 + fibonacciCalls (sub64 x 1) + fibonacciCalls (sub64 x 2)
termination_by x.toNat
decreasing_by
  all_goals
    simp only [sub64, wrap64]
    omega

/-- The body of `fibonacci` run with a bound on the depth of nested calls:
`none` when the bound is reached before a base case. -/
def fibonacciFuel : Nat → Int → Option Int
  | 0, _ => none
  | fuel + 1, x =>
    if x ≤ 1 then some x
    else
      match fibonacciFuel fuel (sub64 x 1), fibonacciFuel fuel (sub64 x 2) with
      | some a, some b => some (add64 a b)
      | _, _ => none

/-! ## `struct Setup` -/

/-- Modelled from the spec: the generic structured value (`nlohmann::json`,
whose declaration is not part of the sources) that `Setup::input` reads and
`Setup::output` builds; a decoded numeric field is `number`. -/
inductive Json where
  | null : Json
  | boolean (b : Bool) : Json
  | number (i : Int) : Json
  | text (s : String) : Json
  | array (items : List Json) : Json
  | object (fields : List (String × Json)) : Json

/-- `struct Setup`: it has no data members. -/
structure Setup where
  deriving DecidableEq

/-- Modelled from the spec: `int64_t input(const nlohmann::json& src) const { return src; }`,
where the conversion of the structured value to `int64_t` is absent from the
sources: a numeric value representable as a 64-bit integer converts to that
integer, anything else is a failed conversion. -/
def Setup.input (_self : Setup) (src : Json) : Option Int :=
  match src with
  | Json.number i => if InInt64 i then some i else none
  | _ => none

/-- `int64_t compute(int64_t x) const { return fibonacci(x); }` -/
def Setup.compute (_self : Setup) (x : Int) : Int :=
  fibonacci x

/-- `compute` with every arithmetic operation checked. -/
def Setup.computeChecked (_self : Setup) (x : Int) : Option Int :=
  fibonacciChecked x

/-- Modelled from the spec: `nlohmann::json output(int64_t x) const { return x; }`,
where the conversion of `int64_t` to the structured value is absent from the
sources: the result is the numeric value holding `x`. -/
def Setup.output (_self : Setup) (x : Int) : Json :=
  Json.number x

/-- Modelled from the spec: the control flow of the harness (`bj::perform`,
declared in `benjmark.h`, which is not part of the sources): the value read
from the input is converted by `input`, passed to `compute`, and the result
converted by `output` is what gets written. -/
def Setup.pipeline (self : Setup) (raw : Json) : Option Json :=
  match self.input raw with
  | some n => some (self.output (self.compute n))
  | none => none

/-! ## The reference sequence -/

/-- The Fibonacci sequence of the glossary: each term is the sum of the two
preceding terms, seeded with `F(0) = 0`, `F(1) = 1`, over unbounded integers. -/
def fibSeq : Nat → Nat
  | 0 => 0
  | 1 => 1
  | n + 2 => fibSeq n + fibSeq (n + 1)

/-! ## Arithmetic of `int64_t` -/

/-- The constants written out in the definitions are `-2^63`, `2^63 - 1` and,
in `wrap64`, `2^63` and `2^64`. -/
theorem int64_constants :
    INT64_MIN = -2 ^ 63 ∧ INT64_MAX = 2 ^ 63 - 1 ∧
      ∀ z : Int, wrap64 z = (z + 2 ^ 63) % 2 ^ 64 - 2 ^ 63 := by
  refine ⟨by decide, by decide, fun z => ?_⟩
  unfold wrap64
  norm_num

theorem wrap64_of_inInt64 (z : Int) (h : InInt64 z) : wrap64 z = z := by
  unfold InInt64 INT64_MIN INT64_MAX at h
  unfold wrap64
  omega

theorem wrap64_inInt64 (z : Int) : InInt64 (wrap64 z) := by
  unfold InInt64 INT64_MIN INT64_MAX wrap64
  omega

theorem sub64_of_gt_one (x k : Int) (hx : InInt64 x) (h : ¬ x ≤ 1) (hk : 1 ≤ k) (hk2 : k ≤ 2) :
    sub64 x k = x - k := by
  unfold InInt64 INT64_MIN INT64_MAX at hx
  unfold sub64 wrap64
  omega

theorem subChecked_of_gt_one (x k : Int) (hx : InInt64 x) (h : ¬ x ≤ 1) (hk : 1 ≤ k)
    (hk2 : k ≤ 2) : subChecked x k = some (x - k) := by
  unfold InInt64 INT64_MIN INT64_MAX at hx
  unfold subChecked InInt64 INT64_MIN INT64_MAX
  rw [if_pos (by omega)]

/-! ## Unfolding `fibonacci` -/

theorem fibonacci_base (x : Int) (h : x ≤ 1) : fibonacci x = x := by
  rw [fibonacci, if_pos h]

theorem fibonacci_step (x : Int) (h : ¬ x ≤ 1) :
    fibonacci x = add64 (fibonacci (sub64 x 1)) (fibonacci (sub64 x 2)) := by
  rw [fibonacci, if_neg h]

theorem fibonacciChecked_base (x : Int) (h : x ≤ 1) : fibonacciChecked x = some x := by
  rw [fibonacciChecked, if_pos h]

theorem fibonacciCalls_base (x : Int) (h : x ≤ 1) : fibonacciCalls x = 0 := by
  rw [fibonacciCalls, if_pos h]

theorem fibonacciCalls_step (x : Int) (h : ¬ x ≤ 1) :
    fibonacciCalls x = 2 + fibonacciCalls (sub64 x 1) + fibonacciCalls (sub64 x 2) := by
  rw [fibonacciCalls, if_neg h]

theorem fibonacci_inInt64 (x : Int) (hx : InInt64 x) : InInt64 (fibonacci x) := by
  by_cases hle : x ≤ 1
  · rw [fibonacci_base x hle]; exact hx
  · rw [fibonacci_step x hle]; exact wrap64_inInt64 _

/-! ## The reference sequence -/

theorem fibSeq_eq_fib (n : Nat) : fibSeq n = Nat.fib n := by
  induction n using Nat.strong_induction_on with
  | _ n ih =>
    match n with
    | 0 => rfl
    | 1 => rfl
    | k + 2 =>
      rw [fibSeq, ih k (by omega), ih (k + 1) (by omega), Nat.fib_add_two]

theorem fibSeq_mono {m n : Nat} (h : m ≤ n) : fibSeq m ≤ fibSeq n := by
  rw [fibSeq_eq_fib, fibSeq_eq_fib]
  exact Nat.fib_mono h

theorem fibSeq_91 : fibSeq 91 = 4660046610375530309 := by
  rw [fibSeq_eq_fib]; norm_num

theorem fibSeq_92 : fibSeq 92 = 7540113804746346429 := by
  rw [fibSeq_eq_fib]; norm_num

theorem fibSeq_93 : fibSeq 93 = 12200160415121876738 := by
  rw [fibSeq_eq_fib]; norm_num

theorem fibSeq_le_max {n : Nat} (h : n ≤ 92) : (fibSeq n : Int) ≤ 7540113804746346429 := by
  have h1 := fibSeq_mono h
  rw [fibSeq_92] at h1
  exact_mod_cast h1

/-! ## `fibonacci` on the overflow-free range -/

theorem fibonacci_nat (n : Nat) (h : n ≤ 92) : fibonacci (n : Int) = (fibSeq n : Int) := by
  induction n using Nat.strong_induction_on with
  | _ n ih =>
    match n with
    | 0 => exact fibonacci_base _ (by decide)
    | 1 => exact fibonacci_base _ (by decide)
    | k + 2 =>
      have hgt : ¬ ((k + 2 : Nat) : Int) ≤ 1 := by omega
      have hin : InInt64 ((k + 2 : Nat) : Int) := by
        unfold InInt64 INT64_MIN INT64_MAX; omega
      have e1 : sub64 ((k + 2 : Nat) : Int) 1 = ((k + 1 : Nat) : Int) := by
        rw [sub64_of_gt_one _ 1 hin hgt (by decide) (by decide)]; omega
      have e2 : sub64 ((k + 2 : Nat) : Int) 2 = ((k : Nat) : Int) := by
        rw [sub64_of_gt_one _ 2 hin hgt (by decide) (by decide)]; omega
      have b := fibSeq_le_max h
      rw [fibonacci_step _ hgt, e1, e2, ih (k + 1) (by omega) (by omega),
        ih k (by omega) (by omega)]
      have e : fibSeq (k + 2) = fibSeq k + fibSeq (k + 1) := by rw [fibSeq]
      rw [e] at b ⊢
      push_cast at b ⊢
      unfold add64
      rw [wrap64_of_inInt64]
      · omega
      · unfold InInt64 INT64_MIN INT64_MAX; omega

theorem fibonacciChecked_step (x : Int) (hx : InInt64 x) (h : ¬ x ≤ 1) :
    fibonacciChecked x =
      match fibonacciChecked (x - 1), fibonacciChecked (x - 2) with
      | some a, some b => addChecked a b
      | _, _ => none := by
  rw [fibonacciChecked, if_neg h]
  have e1 := subChecked_of_gt_one x 1 hx h (by decide) (by decide)
  have e2 := subChecked_of_gt_one x 2 hx h (by decide) (by decide)
  split
  · rename_i x1 x2 h1 h2
    rw [e1] at h1; rw [e2] at h2
    cases h1; cases h2
    rfl
  · rename_i hn
    exact (hn _ _ e1 e2).elim

theorem fibonacciChecked_nat (n : Nat) (h : n ≤ 92) :
    fibonacciChecked (n : Int) = some (fibSeq n : Int) := by
  induction n using Nat.strong_induction_on with
  | _ n ih =>
    match n with
    | 0 => exact fibonacciChecked_base _ (by decide)
    | 1 => exact fibonacciChecked_base _ (by decide)
    | k + 2 =>
      have hgt : ¬ ((k + 2 : Nat) : Int) ≤ 1 := by omega
      have hin : InInt64 ((k + 2 : Nat) : Int) := by
        unfold InInt64 INT64_MIN INT64_MAX; omega
      have e1 : ((k + 2 : Nat) : Int) - 1 = ((k + 1 : Nat) : Int) := by omega
      have e2 : ((k + 2 : Nat) : Int) - 2 = ((k : Nat) : Int) := by omega
      have b := fibSeq_le_max h
      rw [fibonacciChecked_step _ hin hgt, e1, e2, ih (k + 1) (by omega) (by omega),
        ih k (by omega) (by omega)]
      have e : fibSeq (k + 2) = fibSeq k + fibSeq (k + 1) := by rw [fibSeq]
      rw [e] at b ⊢
      push_cast at b ⊢
      show addChecked _ _ = _
      unfold addChecked
      rw [if_pos (by unfold InInt64 INT64_MIN INT64_MAX; omega)]
      congr 1
      omega

theorem fibonacci_of_checked_aux (n : Nat) :
    ∀ x v : Int, x.toNat = n → InInt64 x → fibonacciChecked x = some v → fibonacci x = v := by
  induction n using Nat.strong_induction_on with
  | _ n ih =>
    intro x v hn hx h
    by_cases hle : x ≤ 1
    · rw [fibonacciChecked_base x hle] at h
      rw [fibonacci_base x hle]
      exact Option.some.inj h
    · have hb := hx
      unfold InInt64 INT64_MIN INT64_MAX at hb
      rw [fibonacciChecked_step x hx hle] at h
      rw [fibonacci_step x hle, sub64_of_gt_one x 1 hx hle (by decide) (by decide),
        sub64_of_gt_one x 2 hx hle (by decide) (by decide)]
      have i1 : InInt64 (x - 1) := by unfold InInt64 INT64_MIN INT64_MAX; omega
      have i2 : InInt64 (x - 2) := by unfold InInt64 INT64_MIN INT64_MAX; omega
      cases h1 : fibonacciChecked (x - 1) with
      | none => rw [h1] at h; simp at h
      | some a =>
        cases h2 : fibonacciChecked (x - 2) with
        | none => rw [h1, h2] at h; simp at h
        | some b =>
          rw [h1, h2] at h
          rw [ih (x - 1).toNat (by omega) (x - 1) a rfl i1 h1,
            ih (x - 2).toNat (by omega) (x - 2) b rfl i2 h2]
          simp only [addChecked] at h
          split at h
          · rename_i hab
            unfold add64
            rw [wrap64_of_inInt64 _ hab]
            exact Option.some.inj h
          · simp at h

/-- When no operation overflows, the wrapping evaluation gives the same value. -/
theorem fibonacci_of_checked (x v : Int) (hx : InInt64 x) (h : fibonacciChecked x = some v) :
    fibonacci x = v :=
  fibonacci_of_checked_aux x.toNat x v rfl hx h

/-! ## The first overflow -/

theorem fibonacci_93_eq : fibonacci 93 = -6246583658587674878 := by
  have h92 := fibonacci_nat 92 (by decide)
  have h91 := fibonacci_nat 91 (by decide)
  rw [fibSeq_92] at h92
  rw [fibSeq_91] at h91
  have e1 : sub64 93 1 = ((92 : Nat) : Int) := by decide
  have e2 : sub64 93 2 = ((91 : Nat) : Int) := by decide
  rw [fibonacci_step 93 (by decide), e1, e2, h92, h91]
  decide

theorem fibonacciChecked_93_eq : fibonacciChecked 93 = none := by
  have h92 := fibonacciChecked_nat 92 (by decide)
  have h91 := fibonacciChecked_nat 91 (by decide)
  rw [fibSeq_92] at h92
  rw [fibSeq_91] at h91
  have e1 : (93 : Int) - 1 = ((92 : Nat) : Int) := by decide
  have e2 : (93 : Int) - 2 = ((91 : Nat) : Int) := by decide
  rw [fibonacciChecked_step 93 (by decide) (by decide), e1, e2, h92, h91]
  decide

/-! ## Termination and calls -/

theorem fibonacciFuel_eq (fuel : Nat) :
    ∀ x : Int, x.toNat < fuel → fibonacciFuel fuel x = some (fibonacci x) := by
  induction fuel with
  | zero => intro x h; omega
  | succ k ih =>
    intro x h
    by_cases hle : x ≤ 1
    · rw [fibonacciFuel, if_pos hle, fibonacci_base x hle]
    · have d1 : (sub64 x 1).toNat < k := by
        simp only [sub64, wrap64]; omega
      have d2 : (sub64 x 2).toNat < k := by
        simp only [sub64, wrap64]; omega
      rw [fibonacciFuel, if_neg hle, ih _ d1, ih _ d2, fibonacci_step x hle]

theorem fibonacciCalls_pos_iff (x : Int) : 0 < fibonacciCalls x ↔ 2 ≤ x := by
  by_cases hle : x ≤ 1
  · rw [fibonacciCalls_base x hle]; omega
  · rw [fibonacciCalls_step x hle]; omega

/-! ## Integer arguments -/

theorem fibonacci_of_range (n : Int) (h0 : 0 ≤ n) (h92 : n ≤ 92) :
    fibonacci n = (fibSeq n.toNat : Int) := by
  have h := fibonacci_nat n.toNat (by omega)
  rwa [Int.toNat_of_nonneg h0] at h

theorem fibonacciChecked_of_range (n : Int) (h0 : 0 ≤ n) (h92 : n ≤ 92) :
    fibonacciChecked n = some (fibSeq n.toNat : Int) := by
  have h := fibonacciChecked_nat n.toNat (by omega)
  rwa [Int.toNat_of_nonneg h0] at h

theorem fibonacci_mono_of_range (m n : Int) (h0 : 0 ≤ m) (hmn : m ≤ n) (h92 : n ≤ 92) :
    fibonacci m ≤ fibonacci n := by
  rw [fibonacci_of_range m h0 (by omega), fibonacci_of_range n (by omega) h92]
  have h : fibSeq m.toNat ≤ fibSeq n.toNat := fibSeq_mono (by omega)
  exact_mod_cast h

theorem fibonacci_92_eq : fibonacci 92 = 7540113804746346429 := by
  have h := fibonacci_nat 92 (by decide)
  rw [fibSeq_92] at h
  exact h

theorem fibonacci_91_eq : fibonacci 91 = 4660046610375530309 := by
  have h := fibonacci_nat 91 (by decide)
  rw [fibSeq_91] at h
  exact h

/-! ## Claims -/

/-- C1: for every integer `n` with `0 <= n <= 30`, `fibonacci(n)` and
`Setup::compute(n)` equal the `n`-th term of the Fibonacci sequence seeded with
`F(0) = 0`, `F(1) = 1`, whose first terms are 0, 1, 1, 2, 3, 5, 8, 13, 21, 34, 55. -/
theorem C1_compute_eq_fibSeq (s : Setup) (n : Int) (h0 : 0 ≤ n) (h30 : n ≤ 30) :
    fibonacci n = (fibSeq n.toNat : Int) ∧ s.compute n = (fibSeq n.toNat : Int) ∧
      (List.range 11).map fibSeq = [0, 1, 1, 2, 3, 5, 8, 13, 21, 34, 55] := by
  refine ⟨fibonacci_of_range n h0 (by omega), fibonacci_of_range n h0 (by omega), ?_⟩
  decide

theorem C1_compute_eq_fibSeq_witness :
    (0 : Int) ≤ 30 ∧ (30 : Int) ≤ 30 ∧
      (fibonacci 30 = (fibSeq (30 : Int).toNat : Int) ∧
        Setup.compute {} 30 = (fibSeq (30 : Int).toNat : Int) ∧
        (List.range 11).map fibSeq = [0, 1, 1, 2, 3, 5, 8, 13, 21, 34, 55]) :=
  ⟨by decide, by decide, C1_compute_eq_fibSeq {} 30 (by decide) (by decide)⟩

/-- C2, as stated, fails: `n = 92` is a 64-bit signed integer with `n >= 1`, the
sum computed by `compute(93)` is not representable, and with wrapping
arithmetic `compute(93)` is negative, hence smaller than `compute(92)`. -/
theorem C2_counterexample :
    InInt64 92 ∧ (1 : Int) ≤ 92 ∧ add64 92 1 = 93 ∧ Setup.computeChecked {} 93 = none ∧
      ¬ (Setup.compute {} (add64 92 1) ≥ Setup.compute {} 92) := by
  refine ⟨by decide, by decide, by decide, fibonacciChecked_93_eq, ?_⟩
  have e : add64 92 1 = 93 := by decide
  rw [e]
  show ¬ (fibonacci 93 ≥ fibonacci 92)
  rw [fibonacci_93_eq, fibonacci_92_eq]
  decide

/-- C2, amended: for every integer `n` with `1 <= n <= 91` (so that `n + 1` stays
in the overflow-free range), `n + 1` is computed without overflow and
`compute(n+1) >= compute(n)`. -/
theorem C2_monotone_upto_91 (s : Setup) (n : Int) (h1 : 1 ≤ n) (h91 : n ≤ 91) :
    add64 n 1 = n + 1 ∧ s.compute (add64 n 1) ≥ s.compute n := by
  have e : add64 n 1 = n + 1 :=
    wrap64_of_inInt64 _ (by unfold InInt64 INT64_MIN INT64_MAX; omega)
  refine ⟨e, ?_⟩
  rw [e]
  exact fibonacci_mono_of_range n (n + 1) (by omega) (by omega) (by omega)

theorem C2_monotone_upto_91_witness :
    (1 : Int) ≤ 91 ∧ (91 : Int) ≤ 91 ∧
      (add64 91 1 = 91 + 1 ∧ Setup.compute {} (add64 91 1) ≥ Setup.compute {} 91) :=
  ⟨by decide, by decide, C2_monotone_upto_91 {} 91 (by decide) (by decide)⟩

/-- C3: for every 64-bit signed `n`, if `n <= 1` then `fibonacci(n) = n`, and if
`n > 1` then `fibonacci(n)` is the sum `fibonacci(n-1) + fibonacci(n-2)` taken
in fixed-width 64-bit signed arithmetic: the sum reduced modulo `2^64` into
`[-2^63, 2^63 - 1]`, hence the exact sum whenever that is representable; in
both cases the result is a 64-bit signed value. -/
theorem C3_defining_equations (n : Int) (hn : InInt64 n) :
    (n ≤ 1 → fibonacci n = n) ∧
      (n > 1 → fibonacci n =
        (fibonacci (n - 1) + fibonacci (n - 2) + 2 ^ 63) % 2 ^ 64 - 2 ^ 63) ∧
      (n > 1 → -2 ^ 63 ≤ fibonacci (n - 1) + fibonacci (n - 2) →
        fibonacci (n - 1) + fibonacci (n - 2) ≤ 2 ^ 63 - 1 →
        fibonacci n = fibonacci (n - 1) + fibonacci (n - 2)) ∧
      (-2 ^ 63 ≤ fibonacci n ∧ fibonacci n ≤ 2 ^ 63 - 1) := by
  have step : n > 1 → fibonacci n = wrap64 (fibonacci (n - 1) + fibonacci (n - 2)) := by
    intro h
    have hgt : ¬ n ≤ 1 := by omega
    rw [fibonacci_step n hgt, sub64_of_gt_one n 1 hn hgt (by decide) (by decide),
      sub64_of_gt_one n 2 hn hgt (by decide) (by decide)]
    rfl
  refine ⟨fun h => fibonacci_base n h, fun h => ?_, fun h hlo hhi => ?_, ?_⟩
  · rw [step h, int64_constants.2.2]
  · rw [step h]
    apply wrap64_of_inInt64
    rw [InInt64, int64_constants.1, int64_constants.2.1]
    exact ⟨hlo, hhi⟩
  · have hr := fibonacci_inInt64 n hn
    rw [InInt64, int64_constants.1, int64_constants.2.1] at hr
    exact hr

theorem C3_defining_equations_witness :
    InInt64 93 ∧
      (((93 : Int) ≤ 1 → fibonacci 93 = 93) ∧
        ((93 : Int) > 1 → fibonacci 93 =
          (fibonacci (93 - 1) + fibonacci (93 - 2) + 2 ^ 63) % 2 ^ 64 - 2 ^ 63) ∧
        ((93 : Int) > 1 → -2 ^ 63 ≤ fibonacci (93 - 1) + fibonacci (93 - 2) →
          fibonacci (93 - 1) + fibonacci (93 - 2) ≤ 2 ^ 63 - 1 →
          fibonacci 93 = fibonacci (93 - 1) + fibonacci (93 - 2)) ∧
        (-2 ^ 63 ≤ fibonacci 93 ∧ fibonacci 93 ≤ 2 ^ 63 - 1)) :=
  ⟨by decide, C3_defining_equations 93 (by decide)⟩

/-- C4: for every `n < 0` (down to `INT64_MIN`), `compute(n)` returns `n`
itself, no recursive call is made (the result is reached at call depth 1),
and no operation fails. -/
theorem C4_negative_passthrough (s : Setup) (n : Int) (hneg : n < 0) :
    s.compute n = n ∧ fibonacci n = n ∧ fibonacciCalls n = 0 ∧
      s.computeChecked n = some n ∧ fibonacciFuel 1 n = some n := by
  have hle : n ≤ 1 := by omega
  refine ⟨fibonacci_base n hle, fibonacci_base n hle, fibonacciCalls_base n hle,
    fibonacciChecked_base n hle, ?_⟩
  rw [fibonacciFuel, if_pos hle]

theorem C4_negative_passthrough_witness :
    InInt64 INT64_MIN ∧ INT64_MIN < 0 ∧
      (Setup.compute {} INT64_MIN = INT64_MIN ∧ fibonacci INT64_MIN = INT64_MIN ∧
        fibonacciCalls INT64_MIN = 0 ∧ Setup.computeChecked {} INT64_MIN = some INT64_MIN ∧
        fibonacciFuel 1 INT64_MIN = some INT64_MIN) :=
  ⟨by decide, by decide, C4_negative_passthrough {} INT64_MIN (by decide)⟩

/-- C5: `compute(0) = 0`, `compute(1) = 1`, `compute(2) = 1`, `compute(10) = 55`
and `compute(20) = 6765`. -/
theorem C5_listed_values (s : Setup) :
    s.compute 0 = 0 ∧ s.compute 1 = 1 ∧ s.compute 2 = 1 ∧ s.compute 10 = 55 ∧
      s.compute 20 = 6765 := by
  refine ⟨fibonacci_base 0 (by decide), fibonacci_base 1 (by decide), ?_, ?_, ?_⟩
  · exact fibonacci_nat 2 (by decide)
  · exact fibonacci_nat 10 (by decide)
  · exact fibonacci_nat 20 (by decide)

/-- C6: for every numeric value holding an integer `i` representable in 64 bits,
`Setup::input` gives `i` unchanged, `Setup::output(x)` is the numeric value
holding `x`, and `output(compute(input(v)))` is the numeric value holding
`fibonacci(i)`; the input value 10 yields the output value 55. -/
theorem C6_pipeline (s : Setup) (i x : Int) (hi : InInt64 i) :
    s.input (Json.number i) = some i ∧ s.output x = Json.number x ∧
      s.pipeline (Json.number i) = some (Json.number (fibonacci i)) ∧
      s.pipeline (Json.number 10) = some (Json.number 55) := by
  have hin : ∀ j : Int, InInt64 j → s.input (Json.number j) = some j := by
    intro j hj
    simp only [Setup.input]
    rw [if_pos hj]
  refine ⟨hin i hi, rfl, ?_, ?_⟩
  · simp only [Setup.pipeline, hin i hi, Setup.output, Setup.compute]
  · have h10 : fibonacci 10 = 55 := fibonacci_nat 10 (by decide)
    simp only [Setup.pipeline, hin 10 (by decide), Setup.output, Setup.compute, h10]

theorem C6_pipeline_witness :
    InInt64 10 ∧
      (Setup.input {} (Json.number 10) = some 10 ∧ Setup.output {} 55 = Json.number 55 ∧
        Setup.pipeline {} (Json.number 10) = some (Json.number (fibonacci 10)) ∧
        Setup.pipeline {} (Json.number 10) = some (Json.number 55)) :=
  ⟨by decide, C6_pipeline {} 10 55 (by decide)⟩

/-- C8: for every integer `n` with `0 <= n <= 92`, no operation in the recursion
of `fibonacci(n)` leaves the signed 64-bit range, the value returned is the
Fibonacci number `F(n)` over unbounded integers, and the largest such value
is `fibonacci(92) = 7540113804746346429`. -/
theorem C8_overflow_free (n : Int) (h0 : 0 ≤ n) (h92 : n ≤ 92) :
    fibonacciChecked n = some (fibSeq n.toNat : Int) ∧ fibonacci n = (fibSeq n.toNat : Int) ∧
      fibonacci n ≤ fibonacci 92 ∧ fibonacci 92 = 7540113804746346429 ∧
      InInt64 7540113804746346429 :=
  ⟨fibonacciChecked_of_range n h0 h92, fibonacci_of_range n h0 h92,
    fibonacci_mono_of_range n 92 h0 h92 (by decide), fibonacci_92_eq, by decide⟩

theorem C8_overflow_free_witness :
    (0 : Int) ≤ 92 ∧ (92 : Int) ≤ 92 ∧
      (fibonacciChecked 92 = some (fibSeq (92 : Int).toNat : Int) ∧
        fibonacci 92 = (fibSeq (92 : Int).toNat : Int) ∧
        fibonacci 92 ≤ fibonacci 92 ∧ fibonacci 92 = 7540113804746346429 ∧
        InInt64 7540113804746346429) :=
  ⟨by decide, by decide, C8_overflow_free 92 (by decide) (by decide)⟩

/-- C9: `n = 93` is the smallest non-negative index at which an operation of
`fibonacci(n)` overflows: below it none does, and at 93 the sum
`fibonacci(92) + fibonacci(91) = 12200160415121876738` exceeds
`INT64_MAX = 9223372036854775807`; with wrapping arithmetic `fibonacci(93)`
returns `-6246583658587674878`, which is not `F(93)`, as an ordinary result. -/
theorem C9_first_overflow :
    (∀ n : Int, 0 ≤ n → n < 93 → fibonacciChecked n = some (fibonacci n)) ∧
      fibonacciChecked 93 = none ∧
      fibonacci 92 + fibonacci 91 = 12200160415121876738 ∧
      INT64_MAX = 9223372036854775807 ∧ INT64_MAX < fibonacci 92 + fibonacci 91 ∧
      fibonacci 93 = -6246583658587674878 ∧ fibonacci 93 ≠ (fibSeq 93 : Int) ∧
      fibonacciFuel 94 93 = some (-6246583658587674878) := by
  refine ⟨?_, fibonacciChecked_93_eq, ?_, rfl, ?_, fibonacci_93_eq, ?_, ?_⟩
  · intro n h0 h93
    rw [fibonacciChecked_of_range n h0 (by omega), fibonacci_of_range n h0 (by omega)]
  · rw [fibonacci_92_eq, fibonacci_91_eq]; decide
  · rw [fibonacci_92_eq, fibonacci_91_eq]; decide
  · rw [fibonacci_93_eq, fibSeq_93]; decide
  · rw [fibonacciFuel_eq 94 93 (by decide), fibonacci_93_eq]

theorem C9_first_overflow_witness :
    (0 : Int) ≤ 92 ∧ (92 : Int) < 93 ∧ fibonacciChecked 92 = some (fibonacci 92) :=
  ⟨by decide, by decide, C9_first_overflow.1 92 (by decide) (by decide)⟩

/-- C10: for every 64-bit signed `x`, a recursive call is made exactly when
`x >= 2`; its arguments `x - 1` and `x - 2` are then computed without
underflow, are non-negative and strictly smaller than `x`; and the recursion
reaches the base case on every path: evaluated with call depth bounded by
`x + 1` (by 1 when `x <= 1`), `fibonacci(x)` returns its result. -/
theorem C10_total (x : Int) (hx : InInt64 x) :
    (0 < fibonacciCalls x ↔ 2 ≤ x) ∧
      (2 ≤ x → subChecked x 1 = some (sub64 x 1) ∧ subChecked x 2 = some (sub64 x 2) ∧
        sub64 x 1 = x - 1 ∧ sub64 x 2 = x - 2 ∧ 0 ≤ sub64 x 1 ∧ 0 ≤ sub64 x 2 ∧
        sub64 x 1 < x ∧ sub64 x 2 < x) ∧
      fibonacciFuel (x.toNat + 1) x = some (fibonacci x) := by
  refine ⟨fibonacciCalls_pos_iff x, fun h => ?_, fibonacciFuel_eq _ x (by omega)⟩
  have hgt : ¬ x ≤ 1 := by omega
  have e1 := sub64_of_gt_one x 1 hx hgt (by decide) (by decide)
  have e2 := sub64_of_gt_one x 2 hx hgt (by decide) (by decide)
  have c1 := subChecked_of_gt_one x 1 hx hgt (by decide) (by decide)
  have c2 := subChecked_of_gt_one x 2 hx hgt (by decide) (by decide)
  rw [e1, e2]
  exact ⟨c1, c2, rfl, rfl, by omega, by omega, by omega, by omega⟩

theorem C10_total_witness :
    InInt64 INT64_MAX ∧
      ((0 < fibonacciCalls INT64_MAX ↔ 2 ≤ INT64_MAX) ∧
        (2 ≤ INT64_MAX → subChecked INT64_MAX 1 = some (sub64 INT64_MAX 1) ∧
          subChecked INT64_MAX 2 = some (sub64 INT64_MAX 2) ∧
          sub64 INT64_MAX 1 = INT64_MAX - 1 ∧ sub64 INT64_MAX 2 = INT64_MAX - 2 ∧
          0 ≤ sub64 INT64_MAX 1 ∧ 0 ≤ sub64 INT64_MAX 2 ∧
          sub64 INT64_MAX 1 < INT64_MAX ∧ sub64 INT64_MAX 2 < INT64_MAX) ∧
        fibonacciFuel (INT64_MAX.toNat + 1) INT64_MAX = some (fibonacci INT64_MAX)) :=
  ⟨by decide, C10_total INT64_MAX (by decide)⟩

end Benjmark
